/-
  Verification of the go-gitness API client library.

  This file gives a shallow embedding, in Lean 4, of the request-shaping
  core of the go-gitness client (gitness.go and the per-service path
  builders), together with theorems settling the specification claims.

  Conventions of the embedding:
  * Go strings are Lean Strings; where character-level reasoning is needed
    the functions work on List Char and are wrapped back into String.
    All inputs relevant to the claims are ASCII, where Go's byte-wise
    processing and Lean's character-wise processing agree.
  * Go pointers *T become Option-typed or explicitly-passed values; the
    address of the one shared Client is modelled by a Nat parameter
    (the allocator's choice) so that pointer sharing can be stated.
  * Fallible Go calls return Option / Except.
  * Behaviour of Go standard-library functions used by the code
    (net/url escaping and reference resolution, strconv.Atoi,
    net/http header access and status text, encoding/json string
    (un)marshalling, time RFC3339 formatting/parsing) is embedded from
    the Go standard library sources, restricted where noted to the
    input shapes the client produces.
-/
import Mathlib

namespace Gitness

/-! ## Constants (gitness.go) -/

def defaultBaseURL : String := "https://gitness.com/"

def apiVersionPath : String := "api/v1"

def userAgent : String := "go-gitness"

/-! ## Go net/url path escaping (encodePath mode)

`url.URL.String` escapes the decoded `Path` with `escape(path, encodePath)`.
`shouldEscape` is transcribed from net/url: alphanumerics and `-_.~` are
never escaped; of the reserved characters `$&+,/:;=?@` only `?` is escaped
in path mode; every other character is escaped as `%XX` (uppercase hex).
Go escapes bytes; we escape characters, which agrees on ASCII. -/

def shouldEscapePath (c : Char) : Bool :=
  if ('a' ≤ c ∧ c ≤ 'z') ∨ ('A' ≤ c ∧ c ≤ 'Z') ∨ ('0' ≤ c ∧ c ≤ '9') then
    false
  else if c = '-' ∨ c = '_' ∨ c = '.' ∨ c = '~' then
    false
  else if c = '$' ∨ c = '&' ∨ c = '+' ∨ c = ',' ∨ c = '/' ∨ c = ':' ∨
          c = ';' ∨ c = '=' ∨ c = '?' ∨ c = '@' then
    c = '?'
  else
    true

def upperHexDigit : Nat → Char
  | 0 => '0'
  | 1 => '1'
  | 2 => '2'
  | 3 => '3'
  | 4 => '4'
  | 5 => '5'
  | 6 => '6'
  | 7 => '7'
  | 8 => '8'
  | 9 => '9'
  | 10 => 'A'
  | 11 => 'B'
  | 12 => 'C'
  | 13 => 'D'
  | 14 => 'E'
  | _ => 'F'

def escapePathChar (c : Char) : List Char :=
  if shouldEscapePath c then
    ['%', upperHexDigit (c.toNat / 16 % 16), upperHexDigit (c.toNat % 16)]
  else
    [c]

def escapePathList (l : List Char) : List Char :=
  l.flatMap escapePathChar

def escapePath (s : String) : String :=
  String.mk (escapePathList s.toList)

/-! ## Go net/url resolvePath

Transcribed from net/url's resolvePath: join `ref` onto the directory of
`base` (unless `ref` is absolute), split on `/`, drop `.` segments, let
`..` pop the previous segment, re-add a trailing slash after a final dot
segment, and return with a single leading `/`. -/

def splitSlash : List Char → List (List Char)
  | [] => [[]]
  | c :: rest =>
    if c = '/' then [] :: splitSlash rest
    else
      match splitSlash rest with
      | [] => [[c]]
      | s :: ss => (c :: s) :: ss

def joinSlash : List (List Char) → List Char
  | [] => []
  | [s] => s
  | s :: ss => s ++ '/' :: joinSlash ss

def resolveSegs (dst : List (List Char)) : List (List Char) → List (List Char)
  | [] => dst
  | seg :: rest =>
    if seg = ['.'] then resolveSegs dst rest
    else if seg = ['.', '.'] then resolveSegs dst.dropLast rest
    else resolveSegs (dst ++ [seg]) rest

/-- `src[len(src)-1]` of a segment list. -/
def lastSeg : List (List Char) → List Char
  | [] => []
  | [s] => s
  | _ :: rest => lastSeg rest

/-- Prefix of `l` up to and including its last `/` (Go `base[:i+1]` with
`i = strings.LastIndex(base, "/")`; empty when there is no slash). -/
def upToLastSlash (l : List Char) : List Char :=
  ((l.reverse.dropWhile (fun c => c ≠ '/')).reverse)

def resolvePathList (base ref : List Char) : List Char :=
  let full :=
    if ref = [] then base
    else if ref.headD ' ' ≠ '/' then upToLastSlash base ++ ref
    else ref
  if full = [] then []
  else
    let src := splitSlash full
    let dst := resolveSegs [] src
    let dst :=
      if lastSeg src = ['.'] ∨ lastSeg src = ['.', '.'] then
        dst ++ [[]]
      else dst
    let joined := joinSlash dst
    '/' :: (if joined.headD ' ' = '/' then joined.tail else joined)

/-! ## Go net/url parsing, restricted

`url.Parse` is embedded for absolute URLs of the simple form
`scheme://host/path` without userinfo, query, fragment or percent-escapes:
these are the base-URL shapes the client is configured with (the default
base URL, the test servers' URLs and the documented custom base URLs all
have this form). Strings outside this form are conservatively rejected. -/

structure SimpleURL where
  scheme : String
  host : String
  path : String
deriving DecidableEq, Repr

/-- Split at the first `://`, returning the parts before and after. -/
def breakSchemeSep : List Char → Option (List Char × List Char)
  | [] => none
  | ':' :: '/' :: '/' :: rest => some ([], rest)
  | c :: rest => (breakSchemeSep rest).map (fun p => (c :: p.1, p.2))

def parseSimpleURL (s : String) : Option SimpleURL :=
  match breakSchemeSep s.toList with
  | none => none
  | some (schChars, rest) =>
    if schChars = [] then none
    else if ¬ (schChars.headD ' ').isAlpha then none
    else if ¬ schChars.all (fun c =>
        c.isAlpha ∨ c.isDigit ∨ c = '+' ∨ c = '-' ∨ c = '.') then none
    else
      let hostChars := rest.takeWhile (fun c => c ≠ '/')
      let pathChars := rest.dropWhile (fun c => c ≠ '/')
      if hostChars = [] then none
      else if hostChars.any (fun c =>
          c = '@' ∨ c = '?' ∨ c = '#' ∨ c = '%' ∨ c = ' ' ∨ c = ':') then none
      else if pathChars.any (fun c => c = '?' ∨ c = '#' ∨ c = '%') then none
      else some ⟨String.mk schChars, String.mk hostChars, String.mk pathChars⟩

/-- `url.URL.String` for a simple URL: scheme, `://`, host, escaped path. -/
def simpleURLString (u : SimpleURL) : String :=
  u.scheme ++ "://" ++ u.host ++ escapePath u.path

/-! ## buildFullURL (gitness.go)

    func (c *Client) buildFullURL(path string) string {
        baseURL, _ := url.Parse(c.baseURL + apiVersionPath + "/")
        fullURL := baseURL.ResolveReference(&url.URL{Path: path})
        return fullURL.String()
    }

`ResolveReference` with a reference carrying only `Path` keeps the base's
scheme and host, sets the result path to
`resolvePath(base.EscapedPath(), ref.EscapedPath())`, and `String` prints
that resolved, escaped path (when `Path` is empty the base URL itself is
returned). The parse error is ignored by the Go code; the `none` branch
is outside the modelled scope and never reached for the client's bases. -/
def buildFullURL (baseURL path : String) : String :=
  match parseSimpleURL (baseURL ++ apiVersionPath ++ "/") with
  | none => escapePath path
  | some base =>
    if path = "" then simpleURLString base
    else
      base.scheme ++ "://" ++ base.host ++
        String.mk (resolvePathList (escapePathList base.path.toList)
          (escapePathList path.toList))

/-! ## Repository-service path builders (repositories.go) -/

/-- `ListBranches`: path := fmt.Sprintf("repos/%s/branches", repoPath). -/
def listBranchesPath (repoPath : String) : String :=
  "repos/" ++ repoPath ++ "/branches"

/-- `GetBranch`: path := fmt.Sprintf("repos/%s/branches/%s", repoPath, branchName). -/
def getBranchPath (repoPath branchName : String) : String :=
  "repos/" ++ repoPath ++ "/branches/" ++ branchName

/-! ## The Client and its construction (gitness.go)

A Go `*Client` is modelled as a record carrying the Client struct fields
(`baseURL`, `token`) plus the settings the constructor and options apply
to the wrapped req client, and an `addr : Nat` standing for the pointer
identity of the allocation, supplied by the caller (the allocator's
choice).  Each service value holds the back-pointer as the client's
address. -/

structure ServiceRef where
  client : Nat
deriving DecidableEq, Repr

structure Client where
  addr : Nat
  baseURL : String
  token : String
  reqUserAgent : String
  reqTimeoutNs : Nat
  reqContentType : String
  reqDebugLog : Bool
  reqRetryCount : Option Int
  reqBaseURL : String
  admin : Option ServiceRef
  audit : Option ServiceRef
  auth : Option ServiceRef
  checks : Option ServiceRef
  ciCache : Option ServiceRef
  connectors : Option ServiceRef
  gitspaces : Option ServiceRef
  infraProviders : Option ServiceRef
  pipelines : Option ServiceRef
  principals : Option ServiceRef
  plugins : Option ServiceRef
  pullRequests : Option ServiceRef
  repositories : Option ServiceRef
  resource : Option ServiceRef
  secrets : Option ServiceRef
  spaces : Option ServiceRef
  system : Option ServiceRef
  templates : Option ServiceRef
  upload : Option ServiceRef
  users : Option ServiceRef
  webhooks : Option ServiceRef
deriving DecidableEq, Repr

/-- `ClientOptionFunc` = func(*Client) error. -/
def ClientOptionFunc : Type := Client → Except String Client

/-- The client state right after `req.C()...` and the struct literal in
`NewClient`, before options run: default base URL, the given token, the
req client's user agent, 10s timeout, bearer token and content type. -/
def newClientBase (addr : Nat) (token : String) : Client where
  addr := addr
  baseURL := defaultBaseURL
  token := token
  reqUserAgent := userAgent
  reqTimeoutNs := 10 * 1000000000
  reqContentType := "application/json"
  reqDebugLog := false
  reqRetryCount := none
  reqBaseURL := ""
  admin := none
  audit := none
  auth := none
  checks := none
  ciCache := none
  connectors := none
  gitspaces := none
  infraProviders := none
  pipelines := none
  principals := none
  plugins := none
  pullRequests := none
  repositories := none
  resource := none
  secrets := none
  spaces := none
  system := none
  templates := none
  upload := none
  users := none
  webhooks := none

def applyOptions : List ClientOptionFunc → Client → Except String Client
  | [], c => .ok c
  | o :: os, c =>
    match o c with
    | .error e => .error e
    | .ok c2 => applyOptions os c2

/-- `NewClient`: build the base client, apply the options in order
(returning the first error), set the req client's base URL to
`c.baseURL + apiVersionPath`, then initialize every service with the
back-pointer to the client itself. -/
def NewClient (addr : Nat) (token : String) (options : List ClientOptionFunc) :
    Except String Client :=
  match applyOptions options (newClientBase addr token) with
  | .error e => .error e
  | .ok c =>
    .ok { c with
      reqBaseURL := c.baseURL ++ apiVersionPath
      admin := some ⟨c.addr⟩
      audit := some ⟨c.addr⟩
      auth := some ⟨c.addr⟩
      checks := some ⟨c.addr⟩
      ciCache := some ⟨c.addr⟩
      connectors := some ⟨c.addr⟩
      gitspaces := some ⟨c.addr⟩
      infraProviders := some ⟨c.addr⟩
      pipelines := some ⟨c.addr⟩
      principals := some ⟨c.addr⟩
      plugins := some ⟨c.addr⟩
      pullRequests := some ⟨c.addr⟩
      repositories := some ⟨c.addr⟩
      resource := some ⟨c.addr⟩
      secrets := some ⟨c.addr⟩
      spaces := some ⟨c.addr⟩
      system := some ⟨c.addr⟩
      templates := some ⟨c.addr⟩
      upload := some ⟨c.addr⟩
      users := some ⟨c.addr⟩
      webhooks := some ⟨c.addr⟩ }

/-- `WithBaseURL`: parse the URL, fail on a parse error, otherwise store
its `String()` rendering. -/
def WithBaseURL (baseURL : String) : ClientOptionFunc := fun c =>
  match parseSimpleURL baseURL with
  | none => .error "url parse error"
  | some u => .ok { c with baseURL := simpleURLString u }

/-- `WithHTTPClient` is a documented no-op in the source. -/
def WithHTTPClient : ClientOptionFunc := fun c => .ok c

def WithTimeout (timeoutNs : Nat) : ClientOptionFunc := fun c =>
  .ok { c with reqTimeoutNs := timeoutNs }

def WithDebug : ClientOptionFunc := fun c =>
  .ok { c with reqDebugLog := true }

/-- `WithRetry`: only when retryCount > 0 is the req client's common
retry count set; in every case nil is returned. -/
def WithRetry (retryCount : Int) : ClientOptionFunc := fun c =>
  if retryCount > 0 then .ok { c with reqRetryCount := some retryCount }
  else .ok c

/-! ## JSON values

Response bodies are modelled as parsed JSON values (`Option Json`, with
`none` standing for bytes that are not valid JSON).  `checkResponse` only
ever type-asserts string fields, so JSON numbers are carried as `Int`
without affecting any claim. -/

inductive Json where
  | null
  | bool (b : Bool)
  | num (n : Int)
  | str (s : String)
  | arr (elems : List Json)
  | obj (fields : List (String × Json))

/-- Lookup in an unmarshalled `map[string]any`: for duplicate keys
encoding/json keeps the last occurrence. -/
def jsonLookup (kvs : List (String × Json)) (k : String) : Option Json :=
  ((kvs.filter (fun kv => kv.1 = k)).getLast?).map (fun kv => kv.2)

def jsonLookupString (kvs : List (String × Json)) (k : String) : Option String :=
  match jsonLookup kvs k with
  | some (.str s) => some s
  | _ => none

/-- `json.Unmarshal(bytes, &map[string]any)`: succeeds exactly when the
bytes are valid JSON whose value is an object (or `null`, which leaves
the map empty). -/
def unmarshalMap : Option Json → Option (List (String × Json))
  | some (.obj kvs) => some kvs
  | some .null => some []
  | _ => none

/-! ## HTTP responses and checkResponse (gitness.go) -/

/-- An HTTP response as observed by the client helpers: status code,
response headers (keys in canonical MIME form, as net/http stores them),
and the body bytes in parsed-JSON form. -/
structure HTTPResp where
  statusCode : Int
  headers : List (String × String)
  body : Option Json

structure ErrorResponse where
  statusCode : Int
  message : String
  details : String
deriving DecidableEq, Repr

/-- req/v3 `Response.IsSuccessState`: a 2xx status code. -/
def isSuccessState (code : Int) : Bool :=
  decide (200 ≤ code) && decide (code ≤ 299)

/-- net/http `StatusText`: the standard registered reason phrase, `""`
for unknown codes.  Transcribed from net/http's table. -/
def statusText (code : Int) : String :=
  if code = 100 then "Continue"
  else if code = 101 then "Switching Protocols"
  else if code = 102 then "Processing"
  else if code = 103 then "Early Hints"
  else if code = 200 then "OK"
  else if code = 201 then "Created"
  else if code = 202 then "Accepted"
  else if code = 203 then "Non-Authoritative Information"
  else if code = 204 then "No Content"
  else if code = 205 then "Reset Content"
  else if code = 206 then "Partial Content"
  else if code = 207 then "Multi-Status"
  else if code = 208 then "Already Reported"
  else if code = 226 then "IM Used"
  else if code = 300 then "Multiple Choices"
  else if code = 301 then "Moved Permanently"
  else if code = 302 then "Found"
  else if code = 303 then "See Other"
  else if code = 304 then "Not Modified"
  else if code = 305 then "Use Proxy"
  else if code = 307 then "Temporary Redirect"
  else if code = 308 then "Permanent Redirect"
  else if code = 400 then "Bad Request"
  else if code = 401 then "Unauthorized"
  else if code = 402 then "Payment Required"
  else if code = 403 then "Forbidden"
  else if code = 404 then "Not Found"
  else if code = 405 then "Method Not Allowed"
  else if code = 406 then "Not Acceptable"
  else if code = 407 then "Proxy Authentication Required"
  else if code = 408 then "Request Timeout"
  else if code = 409 then "Conflict"
  else if code = 410 then "Gone"
  else if code = 411 then "Length Required"
  else if code = 412 then "Precondition Failed"
  else if code = 413 then "Request Entity Too Large"
  else if code = 414 then "Request URI Too Long"
  else if code = 415 then "Unsupported Media Type"
  else if code = 416 then "Requested Range Not Satisfiable"
  else if code = 417 then "Expectation Failed"
  else if code = 418 then "I'm a teapot"
  else if code = 421 then "Misdirected Request"
  else if code = 422 then "Unprocessable Entity"
  else if code = 423 then "Locked"
  else if code = 424 then "Failed Dependency"
  else if code = 425 then "Too Early"
  else if code = 426 then "Upgrade Required"
  else if code = 428 then "Precondition Required"
  else if code = 429 then "Too Many Requests"
  else if code = 431 then "Request Header Fields Too Large"
  else if code = 451 then "Unavailable For Legal Reasons"
  else if code = 500 then "Internal Server Error"
  else if code = 501 then "Not Implemented"
  else if code = 502 then "Bad Gateway"
  else if code = 503 then "Service Unavailable"
  else if code = 504 then "Gateway Timeout"
  else if code = 505 then "HTTP Version Not Supported"
  else if code = 506 then "Variant Also Negotiates"
  else if code = 507 then "Insufficient Storage"
  else if code = 508 then "Loop Detected"
  else if code = 510 then "Not Extended"
  else if code = 511 then "Network Authentication Required"
  else ""

/-- `checkResponse`: nil for a success-state response; otherwise an
`*ErrorResponse` whose Message/Details are taken from a string-typed
"message"/"details" key of the JSON error body when the body unmarshals
into a map, with Message falling back to `"HTTP %d: %s"` of the status
code and standard status text whenever it would otherwise be empty. -/
def checkResponse (r : HTTPResp) : Option ErrorResponse :=
  if isSuccessState r.statusCode then none
  else
    let msg0 :=
      match unmarshalMap r.body with
      | some kvs => (jsonLookupString kvs "message").getD ""
      | none => ""
    let det :=
      match unmarshalMap r.body with
      | some kvs => (jsonLookupString kvs "details").getD ""
      | none => ""
    let msg :=
      if msg0 = "" then
        "HTTP " ++ toString r.statusCode ++ ": " ++ statusText r.statusCode
      else msg0
    some ⟨r.statusCode, msg, det⟩

/-! ## Pagination headers (gitness.go) -/

/-- textproto `CanonicalMIMEHeaderKey`: uppercase the first letter and
each letter following a dash, lowercase the rest (the validity fast path
for non-token keys is irrelevant for the x-… keys used here). -/
def canonicalHeaderChars : List Char → Bool → List Char
  | [], _ => []
  | c :: rest, upper =>
    (if upper then c.toUpper else c.toLower) :: canonicalHeaderChars rest (c = '-')

def canonicalHeaderKey (s : String) : String :=
  String.mk (canonicalHeaderChars s.toList true)

/-- net/http `Header.Get`: first stored value under the canonical key,
`""` when the header is absent. -/
def headerGet (headers : List (String × String)) (k : String) : String :=
  match headers.find? (fun kv => kv.1 = canonicalHeaderKey k) with
  | some kv => kv.2
  | none => ""

/-- strconv.Atoi = ParseInt(s, 10, 0) with the platform int taken as
64-bit: an optional sign followed by one or more decimal digits, erroring
on anything else and on values outside the int64 range. -/
def goAtoi (s : String) : Option Int :=
  let l := s.toList
  let signDigits : Bool × List Char :=
    match l with
    | '-' :: rest => (true, rest)
    | '+' :: rest => (false, rest)
    | _ => (false, l)
  let neg := signDigits.1
  let digits := signDigits.2
  if digits = [] then none
  else if ¬ digits.all (fun c => '0' ≤ c ∧ c ≤ '9') then none
  else
    let n : Nat := digits.foldl (fun a c => a * 10 + (c.toNat - 48)) 0
    let v : Int := if neg then -(n : Int) else (n : Int)
    if v < -(2 ^ 63) ∨ (2 ^ 63) - 1 < v then none else some v

/-- The `Response` wrapper: the wrapped response plus the five optional
pagination fields, which start out nil. -/
structure Response where
  statusCode : Int
  headers : List (String × String)
  page : Option Int
  perPage : Option Int
  nextPage : Option Int
  total : Option Int
  totalPages : Option Int

/-- `&Response{Response: resp}`: wrap a response, pagination unset. -/
def freshResponse (r : HTTPResp) : Response :=
  ⟨r.statusCode, r.headers, none, none, none, none, none⟩

/-- One `if v := headers.Get(k); v != "" { if n, err := strconv.Atoi(v);
err == nil { field = &n } }` block of parsePaginationHeaders. -/
def paginationField (old : Option Int) (headers : List (String × String))
    (k : String) : Option Int :=
  let s := headerGet headers k
  if s ≠ "" then
    match goAtoi s with
    | some v => some v
    | none => old
  else old

def parsePaginationHeaders (r : Response) : Response :=
  { r with
    page := paginationField r.page r.headers "x-page"
    perPage := paginationField r.perPage r.headers "x-per-page"
    nextPage := paginationField r.nextPage r.headers "x-next-page"
    total := paginationField r.total r.headers "x-total"
    totalPages := paginationField r.totalPages r.headers "x-total-pages" }

/-! ## The request helpers (gitness.go)

Each helper is embedded as a state-passing function: it receives the
client and the outcome of the HTTP round trip (transport error or a
response) and returns the client it leaves behind together with the
`(*Response, error)` pair.  The request body and success-result
destination only feed the wire call and do not influence control flow,
so they do not appear. -/

inductive GoError where
  | transport (msg : String)
  | api (er : ErrorResponse)
deriving DecidableEq, Repr

/-- `Client.Get`: on a transport error return (nil, err); on a non-success
response return the bare wrapper and the checkResponse error; otherwise
return the wrapper with pagination headers parsed. -/
def Client.get (c : Client) (outcome : Except String HTTPResp) :
    Client × Option Response × Option GoError :=
  match outcome with
  | .error e => (c, none, some (.transport e))
  | .ok resp =>
    match checkResponse resp with
    | some er => (c, some (freshResponse resp), some (.api er))
    | none => (c, some (parsePaginationHeaders (freshResponse resp)), none)

/-- `Client.Post` (body and result only shape the wire call). -/
def Client.post (c : Client) (outcome : Except String HTTPResp) :
    Client × Option Response × Option GoError :=
  match outcome with
  | .error e => (c, none, some (.transport e))
  | .ok resp =>
    match checkResponse resp with
    | some er => (c, some (freshResponse resp), some (.api er))
    | none => (c, some (freshResponse resp), none)

/-- `Client.Put`. -/
def Client.put (c : Client) (outcome : Except String HTTPResp) :
    Client × Option Response × Option GoError :=
  match outcome with
  | .error e => (c, none, some (.transport e))
  | .ok resp =>
    match checkResponse resp with
    | some er => (c, some (freshResponse resp), some (.api er))
    | none => (c, some (freshResponse resp), none)

/-- `Client.Patch`. -/
def Client.patch (c : Client) (outcome : Except String HTTPResp) :
    Client × Option Response × Option GoError :=
  match outcome with
  | .error e => (c, none, some (.transport e))
  | .ok resp =>
    match checkResponse resp with
    | some er => (c, some (freshResponse resp), some (.api er))
    | none => (c, some (freshResponse resp), none)

/-- `Client.Delete`. -/
def Client.delete (c : Client) (outcome : Except String HTTPResp) :
    Client × Option Response × Option GoError :=
  match outcome with
  | .error e => (c, none, some (.transport e))
  | .ok resp =>
    match checkResponse resp with
    | some er => (c, some (freshResponse resp), some (.api er))
    | none => (c, some (freshResponse resp), none)

/-- `Client.DeleteWithResponse` (identical control flow to Delete). -/
def Client.deleteWithResponse (c : Client) (outcome : Except String HTTPResp) :
    Client × Option Response × Option GoError :=
  match outcome with
  | .error e => (c, none, some (.transport e))
  | .ok resp =>
    match checkResponse resp with
    | some er => (c, some (freshResponse resp), some (.api er))
    | none => (c, some (freshResponse resp), none)

/-! ## ListOptions and buildQueryParams (gitness.go) -/

structure ListOptions where
  page : Option Int
  limit : Option Int
  sort : Option String
  order : Option String
  query : Option String
deriving DecidableEq, Repr

/-- req/v3 `Request.SetQueryParam`: set the parameter, replacing an
existing value under the same key. -/
def setQueryParam (params : List (String × String)) (k v : String) :
    List (String × String) :=
  if params.any (fun kv => kv.1 = k) then
    params.map (fun kv => if kv.1 = k then (k, v) else kv)
  else params ++ [(k, v)]

/-- `buildQueryParams`: a nil options struct adds nothing; otherwise each
non-nil field sets its parameter, integers rendered with `%d`. -/
def buildQueryParams (params : List (String × String)) (opt : Option ListOptions) :
    List (String × String) :=
  match opt with
  | none => params
  | some o =>
    let params :=
      match o.page with
      | some n => setQueryParam params "page" (toString n)
      | none => params
    let params :=
      match o.limit with
      | some n => setQueryParam params "limit" (toString n)
      | none => params
    let params :=
      match o.sort with
      | some s => setQueryParam params "sort" s
      | none => params
    let params :=
      match o.order with
      | some s => setQueryParam params "order" s
      | none => params
    match o.query with
    | some s => setQueryParam params "query" s
    | none => params

/-- Stands for the `&Response{Response: resp}` wrapper built around the
nil response req/v3 hands back alongside a transport error. -/
def nilWrappedResponse : Response :=
  ⟨0, [], none, none, none, none, none⟩

/-- `performListRequest`: build the query parameters from the options,
issue the GET, and behave like `Get` except that a transport error is
returned together with a wrapper of the (nil) response.  The parameters
sent on the wire are returned as the second component. -/
def Client.performListRequest (c : Client) (opt : Option ListOptions)
    (outcome : Except String HTTPResp) :
    Client × List (String × String) × Option Response × Option GoError :=
  let params := buildQueryParams [] opt
  match outcome with
  | .error e => (c, params, some nilWrappedResponse, some (.transport e))
  | .ok resp =>
    match checkResponse resp with
    | some er => (c, params, some (freshResponse resp), some (.api er))
    | none => (c, params, some (parsePaginationHeaders (freshResponse resp)), none)

/-! ## The Time type (gitness.go) and its JSON round trip

`type Time time.Time` is modelled by its broken-down wall-clock reading
plus the zone offset in seconds: exactly the data `Format(time.RFC3339)`
reads and `time.Parse(time.RFC3339, …)` produces.  Strings are handled
as `List Char` in this section. -/

structure GoTime where
  year : Int
  month : Nat
  day : Nat
  hour : Nat
  minute : Nat
  second : Nat
  nanosecond : Nat
  offsetSeconds : Int
deriving DecidableEq, Repr

/-- `'0' + u%10` (the `utod` helper of time's appendInt). -/
def utod (u : Nat) : Char :=
  match u % 10 with
  | 0 => '0'
  | 1 => '1'
  | 2 => '2'
  | 3 => '3'
  | 4 => '4'
  | 5 => '5'
  | 6 => '6'
  | 7 => '7'
  | 8 => '8'
  | _ => '9'

/-- time's appendInt digit part: fast paths for the 2- and 4-digit
fields, otherwise decimal digits left-padded with zeros to the width. -/
def padDigits (u width : Nat) : List Char :=
  if width = 2 ∧ u < 100 then [utod (u / 10), utod u]
  else if width = 4 ∧ u < 10000 then
    [utod (u / 1000), utod (u / 100), utod (u / 10), utod u]
  else List.replicate (width - (Nat.toDigits 10 u).length) '0' ++ Nat.toDigits 10 u

/-- time's appendInt: a minus sign for negative values, then the padded
absolute value. -/
def appendIntW (x : Int) (width : Nat) : List Char :=
  if x < 0 then '-' :: padDigits x.natAbs width else padDigits x.natAbs width

/-- The `Z07:00` verb of Format: `Z` for a zero offset, otherwise a sign
and the offset's whole minutes as hh:mm (any seconds part of the offset
is dropped). -/
def formatOffsetColon (off : Int) : List Char :=
  if off = 0 then ['Z']
  else
    (if off < 0 then '-' else '+') ::
      (padDigits (off.natAbs / 60 / 60) 2 ++ ':' :: padDigits (off.natAbs / 60 % 60) 2)

/-- `time.Time.Format(time.RFC3339)`: layout 2006-01-02T15:04:05Z07:00
(no fractional second in this layout). -/
def formatRFC3339 (t : GoTime) : List Char :=
  appendIntW t.year 4 ++ '-' :: padDigits t.month 2 ++ '-' :: padDigits t.day 2 ++
  'T' :: padDigits t.hour 2 ++ ':' :: padDigits t.minute 2 ++ ':' :: padDigits t.second 2 ++
  formatOffsetColon t.offsetSeconds

def isLeapYear (y : Int) : Bool :=
  y % 4 = 0 ∧ (y % 100 ≠ 0 ∨ y % 400 = 0)

/-- time's daysIn. -/
def daysIn (y : Int) (m : Nat) : Nat :=
  match m with
  | 1 => 31
  | 2 => if isLeapYear y then 29 else 28
  | 3 => 31
  | 4 => 30
  | 5 => 31
  | 6 => 30
  | 7 => 31
  | 8 => 31
  | 9 => 30
  | 10 => 31
  | 11 => 30
  | 12 => 31
  | _ => 0

def decDigit (c : Char) : Option Nat :=
  if '0' ≤ c ∧ c ≤ '9' then some (c.toNat - 48) else none

def dec2 (c1 c2 : Char) : Option Nat :=
  match decDigit c1, decDigit c2 with
  | some a, some b => some (10 * a + b)
  | _, _ => none

def dec4 (c1 c2 c3 c4 : Char) : Option Nat :=
  match decDigit c1, decDigit c2, decDigit c3, decDigit c4 with
  | some a, some b, some c, some d => some (1000 * a + 100 * b + 10 * c + d)
  | _, _, _, _ => none

def isDigitChar (c : Char) : Bool := '0' ≤ c ∧ c ≤ '9'

def digitsToNat (l : List Char) : Nat :=
  l.foldl (fun a c => a * 10 + (c.toNat - 48)) 0

/-- time's getnum with fixed=false (the "15" hour verb): one decimal
digit, or two when the following character is also a digit. -/
def getnum2 : List Char → Option (Nat × List Char)
  | [] => none
  | [c1] =>
    match decDigit c1 with
    | some a => some (a, [])
    | none => none
  | c1 :: c2 :: rest =>
    match decDigit c1 with
    | none => none
    | some a =>
      match decDigit c2 with
      | some b => some (10 * a + b, rest)
      | none => some (a, c2 :: rest)

/-- The optional fractional second the general parser accepts after the
seconds field even though the RFC3339 layout has none: a dot or a comma
followed by at least one digit; all digits are consumed and the first
nine give the nanoseconds.  Without that shape nothing is consumed. -/
def parseFrac : List Char → Nat × List Char
  | c :: d :: rest =>
    if (c = '.' ∨ c = ',') ∧ isDigitChar d = true then
      let digits := (d :: rest).takeWhile isDigitChar
      let d9 := digits.take 9 ++ List.replicate (9 - min digits.length 9) '0'
      (digitsToNat d9, (d :: rest).dropWhile isDigitChar)
    else (0, c :: d :: rest)
  | l => (0, l)

/-- The `Z07:00` zone verb as the general parser reads it: `Z`, or a
sign and hh:mm taken as `(hh*60+mm)*60` seconds east of UTC — the
general parser applies no range check to the zone digits (cf. Go issue
54580), so offsets such as `+24:00` are accepted.  The exact-length
patterns encode Parse's trailing "extra text" check. -/
def parseOffset : List Char → Option Int
  | ['Z'] => some 0
  | [s, h1, h2, ':', m1, m2] =>
    if s = '+' ∨ s = '-' then
      match dec2 h1 h2, dec2 m1 m2 with
      | some hh, some mm =>
        some (if s = '-' then -((hh * 60 + mm) * 60 : Int)
              else ((hh * 60 + mm) * 60 : Int))
      | _, _ => none
    else none
  | _ => none

/-- `time.Parse(time.RFC3339, s)`.  Parse first tries the strict
parseRFC3339 fast path and on failure falls back to the general layout
parser; since the fast path accepts a subset of the general parser's
language with identical values, Parse's behaviour is the general
parser's, which is what is embedded here: a four-digit year, fixed
two-digit month/day/minute/second, a one-or-two-digit hour (the "15"
verb is not zero-padded), exact `-`/`T`/`:` punctuation, an optional
dot- or comma-led fraction, and a `Z` or sign-hh:mm zone without a
range check; month, day (against the month's length), hour, minute
and second are range-checked. -/
def parseRFC3339 (l : List Char) : Option GoTime :=
  match l with
  | y1 :: y2 :: y3 :: y4 :: '-' :: o1 :: o2 :: '-' :: d1 :: d2 :: 'T' :: rest =>
    match dec4 y1 y2 y3 y4, dec2 o1 o2, dec2 d1 d2 with
    | some year, some month, some day =>
      match getnum2 rest with
      | none => none
      | some (hour, rest1) =>
        match rest1 with
        | ':' :: mi1 :: mi2 :: ':' :: s1 :: s2 :: rest2 =>
          match dec2 mi1 mi2, dec2 s1 s2 with
          | some minute, some second =>
            match parseFrac rest2 with
            | (nsec, rest3) =>
              match parseOffset rest3 with
              | none => none
              | some off =>
                if 1 ≤ month ∧ month ≤ 12 ∧ 1 ≤ day ∧ day ≤ daysIn (year : Int) month ∧
                   hour ≤ 23 ∧ minute ≤ 59 ∧ second ≤ 59 then
                  some ⟨(year : Int), month, day, hour, minute, second, nsec, off⟩
                else none
          | _, _ => none
        | _ => none
    | _, _, _ => none
  | _ => none

/-! ### encoding/json string encoding and decoding -/

def lowerHexDigit : Nat → Char
  | 0 => '0'
  | 1 => '1'
  | 2 => '2'
  | 3 => '3'
  | 4 => '4'
  | 5 => '5'
  | 6 => '6'
  | 7 => '7'
  | 8 => '8'
  | 9 => '9'
  | 10 => 'a'
  | 11 => 'b'
  | 12 => 'c'
  | 13 => 'd'
  | 14 => 'e'
  | _ => 'f'

/-- encoding/json appendString with HTML escaping (json.Marshal's
default): quote and backslash, the named control escapes, other control
characters as \u00xx, the HTML-sensitive `<`, `>`, `&` as \u00xx, and
U+2028/U+2029 as \u202x; everything else verbatim. -/
def jsonQuoteChar (c : Char) : List Char :=
  if c = '"' then ['\\', '"']
  else if c = '\\' then ['\\', '\\']
  else if c = '\n' then ['\\', 'n']
  else if c = '\r' then ['\\', 'r']
  else if c = '\t' then ['\\', 't']
  else if c.toNat < 32 then
    ['\\', 'u', '0', '0', lowerHexDigit (c.toNat / 16 % 16), lowerHexDigit (c.toNat % 16)]
  else if c = '<' ∨ c = '>' ∨ c = '&' then
    ['\\', 'u', '0', '0', lowerHexDigit (c.toNat / 16 % 16), lowerHexDigit (c.toNat % 16)]
  else if c.toNat = 8232 ∨ c.toNat = 8233 then
    ['\\', 'u', '2', '0', '2', lowerHexDigit (c.toNat % 16)]
  else [c]

/-- `json.Marshal` of a Go string: a quoted JSON string literal. -/
def goJSONQuote (l : List Char) : List Char :=
  '"' :: l.flatMap jsonQuoteChar ++ ['"']

def hexVal (c : Char) : Option Nat :=
  if '0' ≤ c ∧ c ≤ '9' then some (c.toNat - 48)
  else if 'a' ≤ c ∧ c ≤ 'f' then some (c.toNat - 87)
  else if 'A' ≤ c ∧ c ≤ 'F' then some (c.toNat - 55)
  else none

def hex4 (c1 c2 c3 c4 : Char) : Option Nat :=
  match hexVal c1, hexVal c2, hexVal c3, hexVal c4 with
  | some a, some b, some c, some d => some (4096 * a + 256 * b + 16 * c + d)
  | _, _, _, _ => none

def consFst (c : Char) : List Char × List Char → List Char × List Char
  | (a, b) => (c :: a, b)

/-- unquote's `getu4` applied right after a decoded escape: the next four
hex digits when the input continues with another `\u` escape. -/
def getu4After : List Char → Option Nat
  | '\\' :: 'u' :: b1 :: b2 :: b3 :: b4 :: _ => hex4 b1 b2 b3 b4
  | _ => none

/-- The body of a JSON string literal after the opening quote, following
encoding/json's scanner and unquote: bare control characters are
invalid, the backslash escapes are the standard ones, `\u` takes four
hex digits with UTF-16 surrogate pairs combined and lone surrogates
replaced by U+FFFD.  Returns the decoded content and the input after
the closing quote. -/
def scanJSONString (l : List Char) : Option (List Char × List Char) :=
  match l with
  | [] => none
  | c :: rest =>
    if c = '"' then some ([], rest)
    else if c = '\\' then
      match rest with
      | [] => none
      | 'u' :: a1 :: a2 :: a3 :: a4 :: rest2 =>
        match hex4 a1 a2 a3 a4 with
        | none => none
        | some n =>
          if 55296 ≤ n ∧ n < 56320 then
            match getu4After rest2 with
            | some m =>
              if 56320 ≤ m ∧ m < 57344 then
                (consFst (Char.ofNat (65536 + (n - 55296) * 1024 + (m - 56320)))) <$>
                  scanJSONString (rest2.drop 6)
              else (consFst (Char.ofNat 65533)) <$> scanJSONString rest2
            | none => (consFst (Char.ofNat 65533)) <$> scanJSONString rest2
          else if 56320 ≤ n ∧ n < 57344 then
            (consFst (Char.ofNat 65533)) <$> scanJSONString rest2
          else (consFst (Char.ofNat n)) <$> scanJSONString rest2
      | e :: rest2 =>
        if e = '"' then (consFst '"') <$> scanJSONString rest2
        else if e = '\\' then (consFst '\\') <$> scanJSONString rest2
        else if e = '/' then (consFst '/') <$> scanJSONString rest2
        else if e = 'b' then (consFst (Char.ofNat 8)) <$> scanJSONString rest2
        else if e = 'f' then (consFst (Char.ofNat 12)) <$> scanJSONString rest2
        else if e = 'n' then (consFst '\n') <$> scanJSONString rest2
        else if e = 'r' then (consFst '\r') <$> scanJSONString rest2
        else if e = 't' then (consFst '\t') <$> scanJSONString rest2
        else none
    else if c.toNat < 32 then none
    else (consFst c) <$> scanJSONString rest
termination_by l.length
decreasing_by all_goals simp_wf <;> omega

def jsonWS (c : Char) : Bool :=
  c = ' ' ∨ c = '\t' ∨ c = '\n' ∨ c = '\r'

/-- `json.Unmarshal(data, &s)` for `s : string`: optional surrounding
whitespace around exactly one JSON string literal. -/
def goJSONUnmarshalString (data : List Char) : Option (List Char) :=
  match data.dropWhile jsonWS with
  | '"' :: rest =>
    match scanJSONString rest with
    | some (content, rest2) =>
      if rest2.dropWhile jsonWS = [] then some content else none
    | none => none
  | _ => none

/-- `Time.MarshalJSON`: json.Marshal of the RFC3339 rendering. -/
def timeMarshalJSON (t : GoTime) : List Char :=
  goJSONQuote (formatRFC3339 t)

/-- `Time.UnmarshalJSON`: unmarshal a JSON string, parse it as RFC3339,
and only on success overwrite the receiver.  The Bool is the did-it-error
flag of the returned Go error. -/
def timeUnmarshalJSON (t : GoTime) (data : List Char) : GoTime × Bool :=
  match goJSONUnmarshalString data with
  | none => (t, true)
  | some s =>
    match parseRFC3339 s with
    | none => (t, true)
    | some parsed => (parsed, false)

/-- A wall-clock reading that `time.Time` can hold and whose RFC3339
rendering is lossless: in-range date and clock fields, a year within
0..9999, an offset of whole minutes below 24h, and (for losslessness
under the fraction-free RFC3339 layout) whole-second precision. -/
def validRFC3339 (t : GoTime) : Bool :=
  0 ≤ t.year ∧ t.year ≤ 9999 ∧
  1 ≤ t.month ∧ t.month ≤ 12 ∧
  1 ≤ t.day ∧ t.day ≤ daysIn t.year t.month ∧
  t.hour ≤ 23 ∧ t.minute ≤ 59 ∧ t.second ≤ 59 ∧
  t.nanosecond = 0 ∧
  t.offsetSeconds % 60 = 0 ∧ t.offsetSeconds.natAbs ≤ 23 * 3600 + 59 * 60

/-! ## Specification-side helpers used by the theorems -/

/-- The query-parameter contribution of one optional field. -/
def optPair (k : String) : Option String → List (String × String)
  | some v => [(k, v)]
  | none => []

/-- The string-typed "message" value of an error body, when the body is
valid JSON unmarshalling into a map that has one. -/
def extractMessage (body : Option Json) : Option String :=
  match unmarshalMap body with
  | some kvs => jsonLookupString kvs "message"
  | none => none

/-- Characters that json.Marshal emits verbatim inside a string literal. -/
def jsonPlain (c : Char) : Bool :=
  ¬(c = '"' ∨ c = '\\' ∨ c = '\n' ∨ c = '\r' ∨ c = '\t' ∨ c.toNat < 32 ∨
    c = '<' ∨ c = '>' ∨ c = '&' ∨ c.toNat = 8232 ∨ c.toNat = 8233)

/-- A concretely constructed client, for witnesses. -/
def sampleClient : Client :=
  (NewClient 0 "sample-token" []).toOption.getD (newClientBase 0 "sample-token")

/-! # Theorems -/

/-- C3: the claim that a slash in a repository path is percent-encoded to
%2F before being placed in the URL is FALSE of the code: `ListBranches`
interpolates the raw repo path into the operation path and `buildFullURL`
places it in `url.URL.Path`, whose rendering never escapes `/`.  At the
repo path "ci/demo" (the input of the repository's own
TestURLEncodingForRepoPath) the URL keeps the bare slash, where the test
demands `repos/ci%2Fdemo/branches`. -/
theorem listBranches_slash_not_encoded :
    buildFullURL defaultBaseURL (listBranchesPath "ci/demo") =
      "https://gitness.com/api/v1/repos/ci/demo/branches" ∧
    buildFullURL defaultBaseURL (listBranchesPath "ci/demo") ≠
      "https://gitness.com/api/v1/repos/ci%2Fdemo/branches" ∧
    buildFullURL defaultBaseURL (getBranchPath "ci/demo" "feature/test-branch") =
      "https://gitness.com/api/v1/repos/ci/demo/branches/feature/test-branch" := by
  refine ⟨by decide, ?_, by decide⟩
  intro h
  exact absurd ((by decide : buildFullURL defaultBaseURL (listBranchesPath "ci/demo") =
    "https://gitness.com/api/v1/repos/ci/demo/branches") ▸ h) (by decide)

/-- C5: whenever `NewClient` succeeds, every service field of the
returned client is initialized, and each service's client pointer is the
returned client itself. -/
theorem newClient_services_share_client (addr : Nat) (token : String)
    (opts : List ClientOptionFunc) (c : Client)
    (h : NewClient addr token opts = .ok c) :
    c.admin = some ⟨c.addr⟩ ∧ c.audit = some ⟨c.addr⟩ ∧ c.auth = some ⟨c.addr⟩ ∧
    c.checks = some ⟨c.addr⟩ ∧ c.ciCache = some ⟨c.addr⟩ ∧
    c.connectors = some ⟨c.addr⟩ ∧ c.gitspaces = some ⟨c.addr⟩ ∧
    c.infraProviders = some ⟨c.addr⟩ ∧ c.pipelines = some ⟨c.addr⟩ ∧
    c.principals = some ⟨c.addr⟩ ∧ c.plugins = some ⟨c.addr⟩ ∧
    c.pullRequests = some ⟨c.addr⟩ ∧ c.repositories = some ⟨c.addr⟩ ∧
    c.resource = some ⟨c.addr⟩ ∧ c.secrets = some ⟨c.addr⟩ ∧
    c.spaces = some ⟨c.addr⟩ ∧ c.system = some ⟨c.addr⟩ ∧
    c.templates = some ⟨c.addr⟩ ∧ c.upload = some ⟨c.addr⟩ ∧
    c.users = some ⟨c.addr⟩ ∧ c.webhooks = some ⟨c.addr⟩ := by
  unfold NewClient at h
  rcases hap : applyOptions opts (newClientBase addr token) with e | c2 <;> rw [hap] at h
  · exact absurd h (by simp)
  · injection h with h
    subst h
    exact ⟨rfl, rfl, rfl, rfl, rfl, rfl, rfl, rfl, rfl, rfl, rfl, rfl, rfl, rfl,
      rfl, rfl, rfl, rfl, rfl, rfl, rfl⟩

/-- Witness for C5 at a concrete construction. -/
theorem newClient_services_share_client_witness :
    sampleClient.admin = some ⟨sampleClient.addr⟩ ∧
    sampleClient.audit = some ⟨sampleClient.addr⟩ ∧
    sampleClient.auth = some ⟨sampleClient.addr⟩ ∧
    sampleClient.checks = some ⟨sampleClient.addr⟩ ∧
    sampleClient.ciCache = some ⟨sampleClient.addr⟩ ∧
    sampleClient.connectors = some ⟨sampleClient.addr⟩ ∧
    sampleClient.gitspaces = some ⟨sampleClient.addr⟩ ∧
    sampleClient.infraProviders = some ⟨sampleClient.addr⟩ ∧
    sampleClient.pipelines = some ⟨sampleClient.addr⟩ ∧
    sampleClient.principals = some ⟨sampleClient.addr⟩ ∧
    sampleClient.plugins = some ⟨sampleClient.addr⟩ ∧
    sampleClient.pullRequests = some ⟨sampleClient.addr⟩ ∧
    sampleClient.repositories = some ⟨sampleClient.addr⟩ ∧
    sampleClient.resource = some ⟨sampleClient.addr⟩ ∧
    sampleClient.secrets = some ⟨sampleClient.addr⟩ ∧
    sampleClient.spaces = some ⟨sampleClient.addr⟩ ∧
    sampleClient.system = some ⟨sampleClient.addr⟩ ∧
    sampleClient.templates = some ⟨sampleClient.addr⟩ ∧
    sampleClient.upload = some ⟨sampleClient.addr⟩ ∧
    sampleClient.users = some ⟨sampleClient.addr⟩ ∧
    sampleClient.webhooks = some ⟨sampleClient.addr⟩ :=
  newClient_services_share_client 0 "sample-token" [] sampleClient rfl

/-- C6: `buildQueryParams` contributes exactly the parameters of the
non-nil fields — page and limit in decimal, sort, order and query
verbatim — and a nil options struct contributes none. -/
theorem buildQueryParams_exact (o : ListOptions) :
    buildQueryParams [] none = [] ∧
    buildQueryParams [] (some o) =
      optPair "page" (o.page.map (fun n => toString n)) ++
      optPair "limit" (o.limit.map (fun n => toString n)) ++
      optPair "sort" o.sort ++ optPair "order" o.order ++ optPair "query" o.query := by
  refine ⟨rfl, ?_⟩
  rcases o with ⟨p, l, s, ord, q⟩
  rcases p with _ | p <;> rcases l with _ | l <;> rcases s with _ | s <;>
    rcases ord with _ | ord <;> rcases q with _ | q <;> rfl

/-- C7: every request helper leaves the client value it was called on
unchanged — the helpers are stateless in the client. -/
theorem request_helpers_stateless (c : Client) (outcome : Except String HTTPResp)
    (opt : Option ListOptions) :
    (Client.get c outcome).1 = c ∧ (Client.post c outcome).1 = c ∧
    (Client.put c outcome).1 = c ∧ (Client.patch c outcome).1 = c ∧
    (Client.delete c outcome).1 = c ∧ (Client.deleteWithResponse c outcome).1 = c ∧
    (Client.performListRequest c opt outcome).1 = c := by
  rcases outcome with e | resp
  · exact ⟨rfl, rfl, rfl, rfl, rfl, rfl, rfl⟩
  · rcases hcr : checkResponse resp with _ | er <;>
      simp [Client.get, Client.post, Client.put, Client.patch, Client.delete,
        Client.deleteWithResponse, Client.performListRequest, hcr]

/-- C10: `WithRetry n` for n ≤ 0 is a no-op that still succeeds — the
constructed client is the same as without the option — and only for
n > 0 does it set the req client's common retry count to n. -/
theorem withRetry_spec (addr : Nat) (token : String) (n : Int) :
    (n ≤ 0 → (∀ c, WithRetry n c = .ok c) ∧
      NewClient addr token [WithRetry n] = NewClient addr token []) ∧
    (0 < n → ∀ c, NewClient addr token [WithRetry n] = .ok c →
      c.reqRetryCount = some n) := by
  constructor
  · intro hn
    have hop : ∀ c, WithRetry n c = .ok c := by
      intro c
      unfold WithRetry
      rw [if_neg (by omega)]
    refine ⟨hop, ?_⟩
    show NewClient addr token [WithRetry n] = NewClient addr token []
    unfold NewClient
    have : applyOptions [WithRetry n] (newClientBase addr token) =
        applyOptions [] (newClientBase addr token) := by
      unfold applyOptions
      rw [hop]
      rfl
    rw [this]
  · intro hn c h
    unfold NewClient applyOptions at h
    unfold WithRetry at h
    rw [if_pos hn] at h
    injection h with h
    subst h
    rfl

/-- Witness for C10 at n = 0. -/
theorem withRetry_spec_witness :
    WithRetry 0 (newClientBase 1 "t") = .ok (newClientBase 1 "t") ∧
    NewClient 1 "t" [WithRetry 0] = NewClient 1 "t" [] :=
  ⟨((withRetry_spec 1 "t" 0).1 (by norm_num)).1 _,
   ((withRetry_spec 1 "t" 0).1 (by norm_num)).2⟩

/-- The fallback message is never the empty string. -/
theorem http_fallback_ne_empty (a b : String) : "HTTP " ++ a ++ ": " ++ b ≠ "" := by
  intro h
  have h1 := congrArg String.length h
  rw [String.length_append, String.length_append, String.length_append] at h1
  have h2 : ("HTTP " : String).length = 5 := rfl
  have h3 : ("" : String).length = 0 := rfl
  omega

theorem checkResponse_none_iff (r : HTTPResp) :
    checkResponse r = none ↔ isSuccessState r.statusCode = true := by
  cases hb : isSuccessState r.statusCode <;> simp [checkResponse, hb]

/-- C8: when the error body is not valid JSON, or is JSON without a
string-valued "message" key, checkResponse's error carries the
"HTTP <code>: <text>" fallback message; and the message of a returned
error is never empty. -/
theorem checkResponse_fallback_message (resp : HTTPResp) (er : ErrorResponse)
    (h : checkResponse resp = some er) :
    (extractMessage resp.body = none →
      er.message =
        "HTTP " ++ toString resp.statusCode ++ ": " ++ statusText resp.statusCode) ∧
    er.message ≠ "" := by
  cases hb : isSuccessState resp.statusCode
  · simp only [checkResponse, hb, Bool.false_eq_true, if_false, Option.some.injEq] at h
    subst h
    constructor
    · intro hx
      unfold extractMessage at hx
      rcases hum : unmarshalMap resp.body with _ | kvs
      · simp [hum]
      · rw [hum] at hx
        have hx2 : jsonLookupString kvs "message" = none := hx
        simp [hum, hx2]
    · rcases hum : unmarshalMap resp.body with _ | kvs
      · simpa [hum] using http_fallback_ne_empty (toString resp.statusCode)
          (statusText resp.statusCode)
      · rcases hmsg : jsonLookupString kvs "message" with _ | m
        · simpa [hum, hmsg] using http_fallback_ne_empty (toString resp.statusCode)
            (statusText resp.statusCode)
        · by_cases hm : m = ""
          · subst hm
            simpa [hum, hmsg] using http_fallback_ne_empty (toString resp.statusCode)
              (statusText resp.statusCode)
          · simp [hum, hmsg, hm]
  · rw [checkResponse, if_pos hb] at h
    exact absurd h (by simp)

/-- Witness for C8: a 404 with an unparseable body yields the fallback. -/
theorem checkResponse_fallback_message_witness :
    ({statusCode := 404, message := "HTTP 404: Not Found", details := ""} :
        ErrorResponse).message =
      "HTTP " ++ toString (404 : Int) ++ ": " ++ statusText 404 :=
  (checkResponse_fallback_message ⟨404, [], none⟩
    ⟨404, "HTTP 404: Not Found", ""⟩ (by decide)).1 rfl

/-- C1 counterexample: for the non-2xx response with body
{"message": ""} the claim predicts Message = "" (the string value of the
"message" key), but the code replaces an empty extracted message with
the HTTP fallback, so the returned Message differs from the claimed
value. -/
theorem checkResponse_empty_message_counterexample :
    jsonLookupString [("message", Json.str "")] "message" = some "" ∧
    checkResponse ⟨400, [], some (Json.obj [("message", Json.str "")])⟩ =
      some ⟨400, "HTTP 400: Bad Request", ""⟩ ∧
    ("HTTP 400: Bad Request" : String) ≠ "" := by
  refine ⟨rfl, by decide, by decide⟩

/-- C1 (amended): checkResponse returns nil exactly on 2xx responses;
otherwise it returns an ErrorResponse whose Message is the string value
of the body's "message" key whenever that value is a nonempty string
(an empty, missing or non-string message falls back to the HTTP status
line) and whose Details is the string value of the "details" key when
present; and each of Get, Post, Put, Patch, Delete returns an error if
and only if the round trip failed or the status was non-2xx. -/
theorem checkResponse_spec (resp : HTTPResp) (c : Client)
    (outcome : Except String HTTPResp) :
    (isSuccessState resp.statusCode = true → checkResponse resp = none) ∧
    (isSuccessState resp.statusCode = false →
      ∃ er, checkResponse resp = some er ∧
        (∀ kvs m, unmarshalMap resp.body = some kvs →
          jsonLookupString kvs "message" = some m → m ≠ "" → er.message = m) ∧
        (∀ kvs d, unmarshalMap resp.body = some kvs →
          jsonLookupString kvs "details" = some d → er.details = d)) ∧
    ((Client.get c outcome).2.2 ≠ none ↔
      (∃ e, outcome = .error e) ∨
      ∃ r, outcome = .ok r ∧ isSuccessState r.statusCode = false) ∧
    ((Client.post c outcome).2.2 ≠ none ↔
      (∃ e, outcome = .error e) ∨
      ∃ r, outcome = .ok r ∧ isSuccessState r.statusCode = false) ∧
    ((Client.put c outcome).2.2 ≠ none ↔
      (∃ e, outcome = .error e) ∨
      ∃ r, outcome = .ok r ∧ isSuccessState r.statusCode = false) ∧
    ((Client.patch c outcome).2.2 ≠ none ↔
      (∃ e, outcome = .error e) ∨
      ∃ r, outcome = .ok r ∧ isSuccessState r.statusCode = false) ∧
    ((Client.delete c outcome).2.2 ≠ none ↔
      (∃ e, outcome = .error e) ∨
      ∃ r, outcome = .ok r ∧ isSuccessState r.statusCode = false) := by
  refine ⟨?_, ?_, ?_, ?_, ?_, ?_, ?_⟩
  · intro hb
    simp [checkResponse, hb]
  · intro hb
    rcases hcr : checkResponse resp with _ | er
    · rw [checkResponse_none_iff] at hcr
      rw [hb] at hcr
      exact absurd hcr (by simp)
    · refine ⟨er, rfl, ?_, ?_⟩
      · intro kvs m hum hm hne
        simp only [checkResponse, hb, Bool.false_eq_true, if_false, hum, hm,
          Option.getD_some, if_neg hne, Option.some.injEq] at hcr
        rw [← hcr]
      · intro kvs d hum hd
        simp only [checkResponse, hb, Bool.false_eq_true, if_false, hum, hd,
          Option.getD_some, Option.some.injEq] at hcr
        rw [← hcr]
  · rcases outcome with e | r
    · simp [Client.get]
    · rcases hcr : checkResponse r with _ | er
      · have hb := (checkResponse_none_iff r).mp hcr
        simp [Client.get, hcr, hb]
      · have hb : isSuccessState r.statusCode = false := by
          cases hx : isSuccessState r.statusCode
          · rfl
          · rw [checkResponse, if_pos hx] at hcr
            exact absurd hcr (by simp)
        simp [Client.get, hcr, hb]
  · rcases outcome with e | r
    · simp [Client.post]
    · rcases hcr : checkResponse r with _ | er
      · have hb := (checkResponse_none_iff r).mp hcr
        simp [Client.post, hcr, hb]
      · have hb : isSuccessState r.statusCode = false := by
          cases hx : isSuccessState r.statusCode
          · rfl
          · rw [checkResponse, if_pos hx] at hcr
            exact absurd hcr (by simp)
        simp [Client.post, hcr, hb]
  · rcases outcome with e | r
    · simp [Client.put]
    · rcases hcr : checkResponse r with _ | er
      · have hb := (checkResponse_none_iff r).mp hcr
        simp [Client.put, hcr, hb]
      · have hb : isSuccessState r.statusCode = false := by
          cases hx : isSuccessState r.statusCode
          · rfl
          · rw [checkResponse, if_pos hx] at hcr
            exact absurd hcr (by simp)
        simp [Client.put, hcr, hb]
  · rcases outcome with e | r
    · simp [Client.patch]
    · rcases hcr : checkResponse r with _ | er
      · have hb := (checkResponse_none_iff r).mp hcr
        simp [Client.patch, hcr, hb]
      · have hb : isSuccessState r.statusCode = false := by
          cases hx : isSuccessState r.statusCode
          · rfl
          · rw [checkResponse, if_pos hx] at hcr
            exact absurd hcr (by simp)
        simp [Client.patch, hcr, hb]
  · rcases outcome with e | r
    · simp [Client.delete]
    · rcases hcr : checkResponse r with _ | er
      · have hb := (checkResponse_none_iff r).mp hcr
        simp [Client.delete, hcr, hb]
      · have hb : isSuccessState r.statusCode = false := by
          cases hx : isSuccessState r.statusCode
          · rfl
          · rw [checkResponse, if_pos hx] at hcr
            exact absurd hcr (by simp)
        simp [Client.delete, hcr, hb]

/-- Witness for C1 at a concrete 2xx response. -/
theorem checkResponse_spec_witness :
    checkResponse ⟨200, [], none⟩ = none :=
  (checkResponse_spec ⟨200, [], none⟩ sampleClient (.ok ⟨200, [], none⟩)).1 rfl

/-- C2: each pagination field of a freshly wrapped response is set to
the parsed integer value of its header exactly when that header is
present (nonempty) and parses, and stays nil when the header is absent. -/
theorem parsePaginationHeaders_spec (resp : HTTPResp) :
    (∀ v, headerGet resp.headers "x-page" ≠ "" →
      goAtoi (headerGet resp.headers "x-page") = some v →
      (parsePaginationHeaders (freshResponse resp)).page = some v) ∧
    (headerGet resp.headers "x-page" = "" →
      (parsePaginationHeaders (freshResponse resp)).page = none) ∧
    (∀ v, headerGet resp.headers "x-per-page" ≠ "" →
      goAtoi (headerGet resp.headers "x-per-page") = some v →
      (parsePaginationHeaders (freshResponse resp)).perPage = some v) ∧
    (headerGet resp.headers "x-per-page" = "" →
      (parsePaginationHeaders (freshResponse resp)).perPage = none) ∧
    (∀ v, headerGet resp.headers "x-next-page" ≠ "" →
      goAtoi (headerGet resp.headers "x-next-page") = some v →
      (parsePaginationHeaders (freshResponse resp)).nextPage = some v) ∧
    (headerGet resp.headers "x-next-page" = "" →
      (parsePaginationHeaders (freshResponse resp)).nextPage = none) ∧
    (∀ v, headerGet resp.headers "x-total" ≠ "" →
      goAtoi (headerGet resp.headers "x-total") = some v →
      (parsePaginationHeaders (freshResponse resp)).total = some v) ∧
    (headerGet resp.headers "x-total" = "" →
      (parsePaginationHeaders (freshResponse resp)).total = none) ∧
    (∀ v, headerGet resp.headers "x-total-pages" ≠ "" →
      goAtoi (headerGet resp.headers "x-total-pages") = some v →
      (parsePaginationHeaders (freshResponse resp)).totalPages = some v) ∧
    (headerGet resp.headers "x-total-pages" = "" →
      (parsePaginationHeaders (freshResponse resp)).totalPages = none) := by
  refine ⟨?_, ?_, ?_, ?_, ?_, ?_, ?_, ?_, ?_, ?_⟩ <;>
  first
  | (intro v hne hat
     simp [parsePaginationHeaders, freshResponse, paginationField, hne, hat])
  | (intro habs
     simp [parsePaginationHeaders, freshResponse, paginationField, habs])

/-- Witness for C2: one present header parsed, one absent header nil. -/
theorem parsePaginationHeaders_spec_witness :
    (parsePaginationHeaders (freshResponse ⟨200, [("X-Page", "5")], none⟩)).page = some 5 ∧
    (parsePaginationHeaders (freshResponse ⟨200, [("X-Page", "5")], none⟩)).total = none :=
  ⟨(parsePaginationHeaders_spec ⟨200, [("X-Page", "5")], none⟩).1 5 (by decide) (by decide),
   (parsePaginationHeaders_spec ⟨200, [("X-Page", "5")], none⟩).2.2.2.2.2.2.2.1 (by decide)⟩

/-! ### URL-building lemmas for C4 -/

theorem escapePathChar_ne_nil (c : Char) : escapePathChar c ≠ [] := by
  unfold escapePathChar
  split <;> simp

theorem upperHexDigit_ne_slash (n : Nat) : upperHexDigit n ≠ '/' := by
  unfold upperHexDigit
  split <;> decide

theorem slash_not_mem_escapePathChar {c : Char} (hc : c ≠ '/') :
    '/' ∉ escapePathChar c := by
  unfold escapePathChar
  split
  · intro hmem
    simp only [List.mem_cons, List.not_mem_nil, or_false] at hmem
    rcases hmem with h | h | h
    · exact absurd h (by decide)
    · exact upperHexDigit_ne_slash _ h.symm
    · exact upperHexDigit_ne_slash _ h.symm
  · intro hmem
    simp only [List.mem_cons, List.not_mem_nil, or_false] at hmem
    exact hc hmem.symm

theorem escapePathList_cons (c : Char) (l : List Char) :
    escapePathList (c :: l) = escapePathChar c ++ escapePathList l := by
  simp [escapePathList]

theorem escapePathList_ne_nil {l : List Char} (h : l ≠ []) :
    escapePathList l ≠ [] := by
  rcases l with _ | ⟨c, l⟩
  · exact absurd rfl h
  · rw [escapePathList_cons]
    intro hx
    exact escapePathChar_ne_nil c (List.append_eq_nil.mp hx).1

theorem escapePathList_eq_self_of_no_percent {l : List Char}
    (h : '%' ∉ escapePathList l) : escapePathList l = l := by
  induction l with
  | nil => rfl
  | cons c l ih =>
    rw [escapePathList_cons] at h ⊢
    have hc : ¬ shouldEscapePath c = true := by
      intro hesc
      apply h
      rw [show escapePathChar c = ['%', upperHexDigit (c.toNat / 16 % 16),
        upperHexDigit (c.toNat % 16)] from by unfold escapePathChar; rw [if_pos hesc]]
      simp
    rw [show escapePathChar c = [c] from by
      unfold escapePathChar; rw [if_neg hc]] at h ⊢
    have h2 : '%' ∉ escapePathList l := fun hx => h (by simp [hx])
    simp [ih h2]

theorem splitSlash_ne_nil (l : List Char) : splitSlash l ≠ [] := by
  rcases l with _ | ⟨c, rest⟩
  · simp [splitSlash]
  · by_cases hc : c = '/'
    · simp [splitSlash, hc]
    · rcases h : splitSlash rest with _ | ⟨s, ss⟩ <;> simp [splitSlash, hc, h]

theorem splitSlash_cons_slash (l : List Char) :
    splitSlash ('/' :: l) = [] :: splitSlash l := by
  simp [splitSlash]

theorem splitSlash_cons_ne {c : Char} (hc : c ≠ '/') {l : List Char}
    {s : List Char} {ss : List (List Char)} (h : splitSlash l = s :: ss) :
    splitSlash (c :: l) = (c :: s) :: ss := by
  simp [splitSlash, hc, h]

theorem splitSlash_append_ne (pre : List Char) (hpre : ∀ a ∈ pre, a ≠ '/')
    {l s : List Char} {ss : List (List Char)} (h : splitSlash l = s :: ss) :
    splitSlash (pre ++ l) = (pre ++ s) :: ss := by
  induction pre with
  | nil => simpa using h
  | cons a pre ih =>
    have ha : a ≠ '/' := hpre a (List.mem_cons_self a pre)
    have hpre2 : ∀ b ∈ pre, b ≠ '/' := fun b hb => hpre b (List.mem_cons_of_mem a hb)
    have := splitSlash_cons_ne ha (ih hpre2)
    simpa using this

theorem splitSlash_escape (l : List Char) :
    splitSlash (escapePathList l) = (splitSlash l).map escapePathList := by
  induction l with
  | nil => rfl
  | cons c l ih =>
    obtain ⟨s, ss, hsp⟩ : ∃ s ss, splitSlash l = s :: ss := by
      rcases h : splitSlash l with _ | ⟨s, ss⟩
      · exact absurd h (splitSlash_ne_nil l)
      · exact ⟨s, ss, rfl⟩
    by_cases hc : c = '/'
    · subst hc
      rw [escapePathList_cons,
        show escapePathChar '/' = ['/'] from by decide]
      rw [show (['/'] : List Char) ++ escapePathList l = '/' :: escapePathList l from rfl]
      rw [splitSlash_cons_slash, splitSlash_cons_slash, ih]
      rfl
    · have hmem : ∀ a ∈ escapePathChar c, a ≠ '/' := by
        intro a ha hav
        exact slash_not_mem_escapePathChar hc (hav ▸ ha)
      rw [escapePathList_cons]
      rw [splitSlash_append_ne (escapePathChar c) hmem (ih.trans (by rw [hsp]; rfl))]
      rw [splitSlash_cons_ne hc hsp]
      rw [List.map_cons]
      rw [escapePathList_cons]

theorem joinSlash_splitSlash (l : List Char) : joinSlash (splitSlash l) = l := by
  induction l with
  | nil => rfl
  | cons c l ih =>
    obtain ⟨s, ss, hsp⟩ : ∃ s ss, splitSlash l = s :: ss := by
      rcases h : splitSlash l with _ | ⟨s, ss⟩
      · exact absurd h (splitSlash_ne_nil l)
      · exact ⟨s, ss, rfl⟩
    by_cases hc : c = '/'
    · subst hc
      rw [splitSlash_cons_slash, hsp]
      rw [hsp] at ih
      show [] ++ '/' :: joinSlash (s :: ss) = '/' :: l
      rw [ih]
      rfl
    · rw [splitSlash_cons_ne hc hsp]
      rw [hsp] at ih
      rcases ss with _ | ⟨t, ts⟩
      · show c :: s = c :: l
        rw [show joinSlash [s] = s from rfl] at ih
        rw [ih]
      · show (c :: s) ++ '/' :: joinSlash (t :: ts) = c :: l
        rw [show joinSlash (s :: t :: ts) = s ++ '/' :: joinSlash (t :: ts) from rfl] at ih
        rw [← ih]
        rfl

theorem resolveSegs_no_dots (segs : List (List Char))
    (h : ∀ s ∈ segs, s ≠ ['.'] ∧ s ≠ ['.', '.']) :
    ∀ dst, resolveSegs dst segs = dst ++ segs := by
  induction segs with
  | nil => intro dst; simp [resolveSegs]
  | cons seg rest ih =>
    intro dst
    have hs := h seg (List.mem_cons_self seg rest)
    have h2 : ∀ s ∈ rest, s ≠ ['.'] ∧ s ≠ ['.', '.'] :=
      fun s hsm => h s (List.mem_cons_of_mem seg hsm)
    unfold resolveSegs
    rw [if_neg (by simpa using hs.1), if_neg (by simpa using hs.2)]
    rw [ih h2]
    simp

theorem lastSeg_cons_cons (a b : List Char) (l : List (List Char)) :
    lastSeg (a :: b :: l) = lastSeg (b :: l) := rfl

theorem lastSeg_mem {l : List (List Char)} (h : l ≠ []) : lastSeg l ∈ l := by
  induction l with
  | nil => exact absurd rfl h
  | cons a l ih =>
    rcases l with _ | ⟨b, m⟩
    · show lastSeg [a] ∈ [a]
      simp [lastSeg]
    · rw [lastSeg_cons_cons]
      exact List.mem_cons_of_mem a (ih (by simp))

/-- The core resolution fact: against the directory `/api/v1/`, a
relative reference with no dot segments is appended verbatim. -/
theorem resolvePathList_api (ep : List Char) (h0 : ep ≠ [])
    (h1 : ep.headD ' ' ≠ '/')
    (hseg : ∀ s ∈ splitSlash ep, s ≠ ['.'] ∧ s ≠ ['.', '.']) :
    resolvePathList ("/api/v1/".toList) ep = "/api/v1/".toList ++ ep := by
  obtain ⟨s, ss, hsp⟩ : ∃ s ss, splitSlash ep = s :: ss := by
    rcases h : splitSlash ep with _ | ⟨s, ss⟩
    · exact absurd h (splitSlash_ne_nil ep)
    · exact ⟨s, ss, rfl⟩
  have hup : upToLastSlash ("/api/v1/".toList) = "/api/v1/".toList := by decide
  have hsrc : splitSlash ("/api/v1/".toList ++ ep) =
      [] :: ['a', 'p', 'i'] :: ['v', '1'] :: s :: ss := by
    have e1 : splitSlash ('/' :: ep) = [] :: s :: ss := by
      rw [splitSlash_cons_slash, hsp]
    have e2 : splitSlash ('1' :: '/' :: ep) = ['1'] :: s :: ss :=
      splitSlash_cons_ne (by decide) e1
    have e3 : splitSlash ('v' :: '1' :: '/' :: ep) = ['v', '1'] :: s :: ss :=
      splitSlash_cons_ne (by decide) e2
    have e4 : splitSlash ('/' :: 'v' :: '1' :: '/' :: ep) =
        [] :: ['v', '1'] :: s :: ss := by
      rw [splitSlash_cons_slash, e3]
    have e5 : splitSlash ('i' :: '/' :: 'v' :: '1' :: '/' :: ep) =
        ['i'] :: ['v', '1'] :: s :: ss :=
      splitSlash_cons_ne (by decide) e4
    have e6 : splitSlash ('p' :: 'i' :: '/' :: 'v' :: '1' :: '/' :: ep) =
        ['p', 'i'] :: ['v', '1'] :: s :: ss :=
      splitSlash_cons_ne (by decide) e5
    have e7 : splitSlash ('a' :: 'p' :: 'i' :: '/' :: 'v' :: '1' :: '/' :: ep) =
        ['a', 'p', 'i'] :: ['v', '1'] :: s :: ss :=
      splitSlash_cons_ne (by decide) e6
    show splitSlash ('/' :: 'a' :: 'p' :: 'i' :: '/' :: 'v' :: '1' :: '/' :: ep) = _
    rw [splitSlash_cons_slash, e7]
  have hnodots : ∀ t ∈ ([] :: ['a', 'p', 'i'] :: ['v', '1'] :: s :: ss :
      List (List Char)), t ≠ ['.'] ∧ t ≠ ['.', '.'] := by
    intro t ht
    rcases List.mem_cons.mp ht with h | ht
    · subst h; exact ⟨by decide, by decide⟩
    rcases List.mem_cons.mp ht with h | ht
    · subst h; exact ⟨by decide, by decide⟩
    rcases List.mem_cons.mp ht with h | ht
    · subst h; exact ⟨by decide, by decide⟩
    exact hseg t (hsp ▸ ht)
  have hcond : ¬(lastSeg ([] :: ['a', 'p', 'i'] :: ['v', '1'] :: s :: ss) = ['.'] ∨
      lastSeg ([] :: ['a', 'p', 'i'] :: ['v', '1'] :: s :: ss) = ['.', '.']) := by
    have hlast := hnodots _
      (lastSeg_mem (l := [] :: ['a', 'p', 'i'] :: ['v', '1'] :: s :: ss) (by simp))
    intro hor
    rcases hor with h | h
    · exact hlast.1 h
    · exact hlast.2 h
  have hjoin : joinSlash ([] :: ['a', 'p', 'i'] :: ['v', '1'] :: s :: ss) =
      "/api/v1/".toList ++ ep := by
    rw [← hsrc]
    exact joinSlash_splitSlash _
  unfold resolvePathList
  rw [if_neg h0, if_pos h1, hup]
  have hfne : ("/api/v1/".toList ++ ep) ≠ [] := by
    intro hx
    exact h0 (List.append_eq_nil.mp hx).2
  rw [if_neg hfne]
  rw [hsrc]
  simp only [resolveSegs_no_dots _ hnodots [], List.nil_append]
  rw [if_neg hcond]
  rw [hjoin]
  rfl

theorem string_mk_append (s : String) (l : List Char) :
    s ++ String.mk l = String.mk (s.toList ++ l) := by
  cases s
  rfl

/-- C4: with the default configuration, the URL built for an operation
path p (nonempty, relative, without dot segments) is exactly the default
base URL joined with `api/v1/` and p, up to path escaping of p. -/
theorem buildFullURL_default_spec (p : String) (hne : p.toList ≠ [])
    (habs : p.toList.headD ' ' ≠ '/')
    (hseg : ∀ s ∈ splitSlash p.toList, s ≠ ['.'] ∧ s ≠ ['.', '.']) :
    buildFullURL defaultBaseURL p = "https://gitness.com/api/v1/" ++ escapePath p := by
  have hpne : p ≠ "" := by
    intro hx
    apply hne
    rw [hx]
    rfl
  have hred : buildFullURL defaultBaseURL p =
      if p = "" then simpleURLString ⟨"https", "gitness.com", "/api/v1/"⟩
      else ("https" : String) ++ "://" ++ "gitness.com" ++
        String.mk (resolvePathList (escapePathList (("/api/v1/" : String).toList))
          (escapePathList p.toList)) := rfl
  rw [hred, if_neg hpne]
  have h0 : escapePathList p.toList ≠ [] := escapePathList_ne_nil hne
  have h1 : (escapePathList p.toList).headD ' ' ≠ '/' := by
    rcases hl : p.toList with _ | ⟨c, l⟩
    · exact absurd hl hne
    · have hc : c ≠ '/' := by
        rw [hl] at habs
        simpa using habs
      rw [escapePathList_cons]
      rcases hchar : escapePathChar c with _ | ⟨a, rest⟩
      · exact absurd hchar (escapePathChar_ne_nil c)
      · have ha : a ∈ escapePathChar c := by rw [hchar]; simp
        have := slash_not_mem_escapePathChar hc
        simp only [List.cons_append, List.headD_cons]
        intro hav
        exact this (hav ▸ ha)
  have hseg2 : ∀ s ∈ splitSlash (escapePathList p.toList),
      s ≠ ['.'] ∧ s ≠ ['.', '.'] := by
    intro s hs
    rw [splitSlash_escape] at hs
    rcases List.mem_map.mp hs with ⟨t, htm, hte⟩
    have ht := hseg t htm
    constructor
    · intro hx
      apply ht.1
      have : escapePathList t = ['.'] := hte.trans hx
      have hnp : '%' ∉ escapePathList t := by
        rw [this]; decide
      rw [← escapePathList_eq_self_of_no_percent hnp]
      exact this
    · intro hx
      apply ht.2
      have : escapePathList t = ['.', '.'] := hte.trans hx
      have hnp : '%' ∉ escapePathList t := by
        rw [this]; decide
      rw [← escapePathList_eq_self_of_no_percent hnp]
      exact this
  have hbase : escapePathList (("/api/v1/" : String).toList) = "/api/v1/".toList := by
    decide
  rw [hbase, resolvePathList_api _ h0 h1 hseg2]
  have hpre : ("https" : String) ++ "://" ++ "gitness.com" = "https://gitness.com" := by
    decide
  rw [show escapePath p = String.mk (escapePathList p.toList) from rfl]
  rw [hpre, string_mk_append, string_mk_append]
  rw [← List.append_assoc]
  rw [show ("https://gitness.com" : String).toList ++ ("/api/v1/" : String).toList =
    ("https://gitness.com/api/v1/" : String).toList from by decide]

/-- Witness for C4 at the branches-listing path of a repository. -/
theorem buildFullURL_default_spec_witness :
    buildFullURL defaultBaseURL "repos/demo/branches" =
      "https://gitness.com/api/v1/" ++ escapePath "repos/demo/branches" :=
  buildFullURL_default_spec "repos/demo/branches" (by decide) (by decide) (by decide)

/-! ### Digit and RFC3339 lemmas for C9 -/

theorem decDigit_utod (u : Nat) : decDigit (utod u) = some (u % 10) := by
  have h : u % 10 < 10 := Nat.mod_lt _ (by norm_num)
  unfold utod
  generalize u % 10 = r at h ⊢
  interval_cases r <;> rfl

theorem dec2_utod (u : Nat) (h : u < 100) :
    dec2 (utod (u / 10)) (utod u) = some u := by
  unfold dec2
  rw [decDigit_utod, decDigit_utod]
  show some (10 * (u / 10 % 10) + u % 10) = some u
  have : 10 * (u / 10 % 10) + u % 10 = u := by omega
  rw [this]

theorem dec4_utod (u : Nat) (h : u < 10000) :
    dec4 (utod (u / 1000)) (utod (u / 100)) (utod (u / 10)) (utod u) = some u := by
  unfold dec4
  rw [decDigit_utod, decDigit_utod, decDigit_utod, decDigit_utod]
  show some (1000 * (u / 1000 % 10) + 100 * (u / 100 % 10) + 10 * (u / 10 % 10) + u % 10) =
    some u
  have : 1000 * (u / 1000 % 10) + 100 * (u / 100 % 10) + 10 * (u / 10 % 10) + u % 10 = u := by
    omega
  rw [this]

theorem padDigits_two (u : Nat) (h : u < 100) :
    padDigits u 2 = [utod (u / 10), utod u] := by
  unfold padDigits
  rw [if_pos ⟨rfl, h⟩]

theorem padDigits_four (u : Nat) (h : u < 10000) :
    padDigits u 4 = [utod (u / 1000), utod (u / 100), utod (u / 10), utod u] := by
  unfold padDigits
  rw [if_neg (by simp), if_pos ⟨rfl, h⟩]

theorem getnum2_utod (u : Nat) (h : u < 100) (rest : List Char) :
    getnum2 (utod (u / 10) :: utod u :: rest) = some (u, rest) := by
  simp only [getnum2]
  rw [decDigit_utod, decDigit_utod]
  show some (10 * (u / 10 % 10) + u % 10, rest) = some (u, rest)
  have : 10 * (u / 10 % 10) + u % 10 = u := by omega
  rw [this]

theorem parseFrac_formatOffset (off : Int)
    (hrange : off.natAbs ≤ 23 * 3600 + 59 * 60) :
    parseFrac (formatOffsetColon off) = (0, formatOffsetColon off) := by
  unfold formatOffsetColon
  by_cases hz : off = 0
  · rw [if_pos hz]
    rfl
  · rw [if_neg hz]
    have hz1 : off.natAbs / 60 / 60 < 100 := by omega
    have hz2 : off.natAbs / 60 % 60 < 100 := by omega
    rw [padDigits_two _ hz1, padDigits_two _ hz2]
    by_cases hneg : off < 0
    · rw [if_pos hneg]
      simp only [List.cons_append, List.nil_append, parseFrac]
      rw [if_neg (by
        rintro ⟨hor, -⟩
        rcases hor with h | h <;> exact absurd h (by decide))]
    · rw [if_neg hneg]
      simp only [List.cons_append, List.nil_append, parseFrac]
      rw [if_neg (by
        rintro ⟨hor, -⟩
        rcases hor with h | h <;> exact absurd h (by decide))]

theorem daysIn_le_31 (y : Int) (m : Nat) : daysIn y m ≤ 31 := by
  unfold daysIn
  split <;> first | decide | (split <;> decide)

theorem parseOffset_format (off : Int) (hmod : off % 60 = 0)
    (hrange : off.natAbs ≤ 23 * 3600 + 59 * 60) :
    parseOffset (formatOffsetColon off) = some off := by
  by_cases hz : off = 0
  · subst hz
    rfl
  · unfold formatOffsetColon
    rw [if_neg hz]
    have hz1 : off.natAbs / 60 / 60 < 100 := by omega
    have hz2 : off.natAbs / 60 % 60 < 100 := by omega
    rw [padDigits_two _ hz1, padDigits_two _ hz2]
    have hA : off.natAbs % 60 = 0 := by omega
    have harith : (off.natAbs / 60 / 60 * 60 + off.natAbs / 60 % 60) * 60 =
        off.natAbs := by omega
    have hpm : ¬ ('+' : Char) = '-' := by decide
    by_cases hneg : off < 0
    · rw [if_pos hneg]
      simp only [List.cons_append, List.nil_append, parseOffset]
      rw [dec2_utod _ hz1, dec2_utod _ hz2]
      simp only [eq_self_iff_true, or_true, true_or, if_true]
      congr 1
      omega
    · rw [if_neg hneg]
      simp only [List.cons_append, List.nil_append, parseOffset]
      rw [dec2_utod _ hz1, dec2_utod _ hz2]
      simp only [eq_self_iff_true, or_true, true_or, if_true, hpm, if_false]
      congr 1
      omega

/-- Parsing inverts formatting on every losslessly representable time. -/
theorem parseRFC3339_format (t : GoTime) (hval : validRFC3339 t = true) :
    parseRFC3339 (formatRFC3339 t) = some t := by
  rcases t with ⟨y, mo, d, h, mi, sec, ns, off⟩
  simp only [validRFC3339, decide_eq_true_eq] at hval
  obtain ⟨hy0, hy1, hmo1, hmo2, hd1, hd2, hh, hmi, hsec, hns, hoffm, hoffr⟩ := hval
  have hcast : ((Int.natAbs y : Nat) : Int) = y := Int.natAbs_of_nonneg hy0
  have hyn : y.natAbs < 10000 := by omega
  have hd100 : d < 100 := by
    have h31 := daysIn_le_31 y mo
    omega
  unfold formatRFC3339 appendIntW
  rw [if_neg (by omega : ¬ (y < 0))]
  rw [padDigits_four _ hyn]
  rw [padDigits_two mo (by omega), padDigits_two d hd100, padDigits_two h (by omega),
    padDigits_two mi (by omega), padDigits_two sec (by omega)]
  simp only [List.cons_append, List.nil_append, parseRFC3339]
  rw [dec4_utod _ hyn]
  rw [dec2_utod mo (by omega), dec2_utod d hd100]
  simp only [getnum2_utod h (by omega), dec2_utod mi (by omega),
    dec2_utod sec (by omega), parseFrac_formatOffset off hoffr,
    parseOffset_format off hoffm hoffr]
  rw [if_pos ⟨hmo1, hmo2, hd1, by rw [hcast]; exact hd2, hh, hmi, hsec⟩]
  rw [hcast]
  rw [hns]

/-! ### JSON string marshalling lemmas for C9 -/

theorem jsonQuoteChar_plain {c : Char} (h : jsonPlain c = true) :
    jsonQuoteChar c = [c] := by
  simp only [jsonPlain, decide_eq_true_eq] at h
  push_neg at h
  obtain ⟨h1, h2, h3, h4, h5, h6, h7, h8, h9, h10, h11⟩ := h
  unfold jsonQuoteChar
  rw [if_neg h1, if_neg h2, if_neg h3, if_neg h4, if_neg h5,
    if_neg (by omega : ¬ c.toNat < 32),
    if_neg (by push_neg; exact ⟨h7, h8, h9⟩ : ¬(c = '<' ∨ c = '>' ∨ c = '&')),
    if_neg (by push_neg; exact ⟨h10, h11⟩ : ¬(c.toNat = 8232 ∨ c.toNat = 8233))]

theorem flatMap_jsonQuoteChar_plain (l : List Char)
    (h : ∀ c ∈ l, jsonPlain c = true) : l.flatMap jsonQuoteChar = l := by
  induction l with
  | nil => rfl
  | cons c l ih =>
    rw [List.flatMap_cons, jsonQuoteChar_plain (h c (List.mem_cons_self c l)),
      ih (fun b hb => h b (List.mem_cons_of_mem c hb))]
    rfl

theorem scanJSONString_plain (l : List Char) (h : ∀ c ∈ l, jsonPlain c = true) :
    scanJSONString (l ++ ['"']) = some (l, []) := by
  induction l with
  | nil =>
    simp [scanJSONString]
  | cons c l ih =>
    have hc := h c (List.mem_cons_self c l)
    simp only [jsonPlain, decide_eq_true_eq] at hc
    push_neg at hc
    obtain ⟨h1, h2, _, _, _, h6, _, _, _, _, _⟩ := hc
    rw [List.cons_append]
    rw [scanJSONString.eq_def]
    simp only [if_neg h1, if_neg h2, if_neg (show ¬ c.toNat < 32 by omega),
      ih (fun b hb => h b (List.mem_cons_of_mem c hb)), Option.map_some, consFst]

theorem goJSONUnmarshalString_quote_plain (l : List Char)
    (h : ∀ c ∈ l, jsonPlain c = true) :
    goJSONUnmarshalString (goJSONQuote l) = some l := by
  unfold goJSONQuote goJSONUnmarshalString
  rw [flatMap_jsonQuoteChar_plain l h]
  simp only [List.cons_append, List.dropWhile_cons,
    if_neg (by decide : ¬ jsonWS '"' = true), scanJSONString_plain l h,
    List.dropWhile_nil, eq_self_iff_true, if_true]

theorem utod_plain (u : Nat) : jsonPlain (utod u) = true := by
  have h : u % 10 < 10 := Nat.mod_lt _ (by norm_num)
  unfold utod
  generalize u % 10 = r at h ⊢
  interval_cases r <;> decide

theorem formatOffset_chars_plain (off : Int)
    (hrange : off.natAbs ≤ 23 * 3600 + 59 * 60) :
    ∀ c ∈ formatOffsetColon off, jsonPlain c = true := by
  unfold formatOffsetColon
  by_cases hz : off = 0
  · rw [if_pos hz]
    intro c hc
    rcases List.mem_cons.mp hc with h | h
    · subst h; decide
    · exact absurd h (List.not_mem_nil c)
  · rw [if_neg hz]
    have hz1 : off.natAbs / 60 / 60 < 100 := by omega
    have hz2 : off.natAbs / 60 % 60 < 100 := by omega
    rw [padDigits_two _ hz1, padDigits_two _ hz2]
    simp only [List.cons_append, List.nil_append, List.forall_mem_cons]
    refine ⟨?_, utod_plain _, utod_plain _, by decide, utod_plain _, utod_plain _,
      fun c hc => absurd hc (List.not_mem_nil c)⟩
    by_cases hneg : off < 0
    · rw [if_pos hneg]; decide
    · rw [if_neg hneg]; decide

theorem format_chars_plain (t : GoTime) (hval : validRFC3339 t = true) :
    ∀ c ∈ formatRFC3339 t, jsonPlain c = true := by
  rcases t with ⟨y, mo, d, h, mi, sec, ns, off⟩
  simp only [validRFC3339, decide_eq_true_eq] at hval
  obtain ⟨hy0, hy1, hmo1, hmo2, hd1, hd2, hh, hmi, hsec, hns, hoffm, hoffr⟩ := hval
  have hyn : y.natAbs < 10000 := by omega
  have hd100 : d < 100 := by
    have h31 := daysIn_le_31 y mo
    omega
  unfold formatRFC3339 appendIntW
  rw [if_neg (by omega : ¬ (y < 0))]
  rw [padDigits_four _ hyn]
  rw [padDigits_two mo (by omega), padDigits_two d hd100, padDigits_two h (by omega),
    padDigits_two mi (by omega), padDigits_two sec (by omega)]
  simp only [List.cons_append, List.nil_append, List.forall_mem_cons]
  exact ⟨utod_plain _, utod_plain _, utod_plain _, utod_plain _, by decide,
    utod_plain _, utod_plain _, by decide, utod_plain _, utod_plain _, by decide,
    utod_plain _, utod_plain _, by decide, utod_plain _, utod_plain _, by decide,
    utod_plain _, utod_plain _, formatOffset_chars_plain off hoffr⟩

/-- C9: the custom Time type round-trips through JSON on every time with
whole-second precision and a representable RFC3339 form; MarshalJSON
always yields a JSON string holding the RFC3339 rendering; UnmarshalJSON
fails, leaving the receiver unchanged, on non-string JSON and on strings
that are not RFC3339. -/
theorem time_json_roundtrip (t t0 : GoTime) (hval : validRFC3339 t = true) :
    timeUnmarshalJSON t0 (timeMarshalJSON t) = (t, false) ∧
    goJSONUnmarshalString (timeMarshalJSON t) = some (formatRFC3339 t) ∧
    (∀ data, goJSONUnmarshalString data = none →
      timeUnmarshalJSON t0 data = (t0, true)) ∧
    (∀ data s, goJSONUnmarshalString data = some s → parseRFC3339 s = none →
      timeUnmarshalJSON t0 data = (t0, true)) := by
  have hq : goJSONUnmarshalString (timeMarshalJSON t) = some (formatRFC3339 t) := by
    unfold timeMarshalJSON
    exact goJSONUnmarshalString_quote_plain _ (format_chars_plain t hval)
  refine ⟨?_, hq, ?_, ?_⟩
  · simp only [timeUnmarshalJSON, hq, parseRFC3339_format t hval]
  · intro data hd
    simp only [timeUnmarshalJSON, hd]
  · intro data s hd hp
    simp only [timeUnmarshalJSON, hd, hp]

/-- Witness for C9 at a concrete time value. -/
theorem time_json_roundtrip_witness :
    timeUnmarshalJSON ⟨1970, 1, 1, 0, 0, 0, 0, 0⟩
        (timeMarshalJSON ⟨2024, 1, 2, 3, 4, 5, 0, 0⟩) =
      (⟨2024, 1, 2, 3, 4, 5, 0, 0⟩, false) :=
  (time_json_roundtrip ⟨2024, 1, 2, 3, 4, 5, 0, 0⟩ ⟨1970, 1, 1, 0, 0, 0, 0, 0⟩
    (by decide)).1

end Gitness
